import Mathlib

/-!
Verification of the label-encoding layer of the mpz-bmr16 garbled-circuit
library: `Delta`, `Label` and the `Labels<N, S>` collections of
`mpz-garble-core/src/encoding/mod.rs`, shallowly embedded in Lean.
-/

namespace MpzGarble

/-- Modelled from the spec: `Block` (from the external `mpz_core` crate, not in
this repository's sources) is an opaque 128-bit datum with XOR, LSB read and
LSB set-to-1.  XOR never overflows, so we embed blocks as natural numbers and
use `Nat.xor`; the 128-bit bound is irrelevant to every property proved here. -/
abbrev Block := Nat

/-- Modelled from the spec: LSB read of a `Block` (bit 0). -/
def Block.lsb (b : Block) : Nat := b % 2

/-- Modelled from the spec: `set_lsb()` forces bit 0 of the block to 1. -/
def Block.set_lsb (b : Block) : Block := b ||| 1

/-- `Delta(Block)`: the Free-XOR global binary offset. -/
structure Delta where
  block : Block
deriving DecidableEq, Repr

/-- `Delta::random`: draws a random `Block` from the RNG and sets its LSB.
The single block drawn from the RNG is taken as a parameter, so the theorem
about it quantifies over every possible RNG outcome. -/
def Delta.random (rngBlock : Block) : Delta :=
  ⟨Block.set_lsb rngBlock⟩

/-- `Label(Block)`: an encoded bit label. -/
structure Label where
  block : Block
deriving DecidableEq, Repr

/-- `Label::pointer_bit`: `self.0.lsb() == 1`. -/
def Label.pointer_bit (l : Label) : Bool :=
  Block.lsb l.block == 1

/-- `impl BitXor<Label> for Label`: `Label(self.0 ^ rhs.0)`. -/
def Label.xor (a b : Label) : Label :=
  ⟨Nat.xor a.block b.block⟩

/-- `impl BitXor<Delta> for Label`: `Self(self.0 ^ rhs.0)`. -/
def Label.xorDelta (a : Label) (d : Delta) : Label :=
  ⟨Nat.xor a.block d.block⟩

/-- `state::Full`: full label state, carrying the delta. -/
structure Full where
  delta : Delta
deriving DecidableEq, Repr

/-- `state::Active`: active label state (no data). -/
structure Active where
deriving DecidableEq, Repr

/-- `Labels<const N: usize, S: LabelState>`: a fixed-length collection of `N`
labels plus a state.  The backing `Arc<[Label; N]>` array is embedded as a
function `Fin N → Label` (sharing is irrelevant to the properties proved). -/
@[ext]
structure Labels (N : Nat) (S : Type) where
  state : S
  labels : Fin N → Label

/-- `Labels::len`: `self.labels.len()`, i.e. `N`. -/
def Labels.len {N : Nat} {S : Type} (_ : Labels N S) : Nat := N

/-- `Labels::<N, Full>::delta`: `self.state.delta`. -/
def Labels.delta {N : Nat} (self : Labels N Full) : Delta :=
  self.state.delta

/-- `ValueError` (from `encoding/value.rs`, not in this repository's sources).
Modelled from the spec: error kinds of the encoding layer; `verify` only ever
produces `InvalidActiveEncoding`. -/
inductive ValueError where
  | InvalidLength
  | TypeMismatch
  | InvalidActiveEncoding
  | InvalidCommitment
deriving DecidableEq, Repr

/-- The loop body of `Labels::<N, Full>::verify`, recursing over the list of
wire indices still to check: for each wire, `high = low ^ self.state.delta`;
return `Err(InvalidActiveEncoding)` at the first wire whose active label is
neither `low` nor `high`. -/
def Labels.verifyGo {N : Nat} (self : Labels N Full) (active : Labels N Active) :
    List (Fin N) → Except ValueError Unit
  | [] => Except.ok ()
  | i :: rest =>
    let low := self.labels i
    let high := Label.xorDelta low self.state.delta
    if active.labels i = low ∨ active.labels i = high then
      Labels.verifyGo self active rest
    else
      Except.error ValueError.InvalidActiveEncoding

/-- `Labels::<N, Full>::verify`: iterate over all wires in order. -/
def Labels.verify {N : Nat} (self : Labels N Full) (active : Labels N Active) :
    Except ValueError Unit :=
  Labels.verifyGo self active (List.finRange N)

/-- `Labels::<N, Full>::iter_blocks`: yields, per wire in order,
`[label.0, label.0 ^ *self.delta()]`. -/
def Labels.iter_blocks {N : Nat} (self : Labels N Full) : List (Block × Block) :=
  (List.finRange N).map fun i =>
    ((self.labels i).block, Nat.xor (self.labels i).block (Labels.delta self).block)

/-- `impl BitXor for Labels<N, S>` (all four reference/value variants are the
same computation): the state is taken from the left operand and the labels are
XORed wirewise via `std::array::from_fn`.  The `Full` and `Active` impls have
identical bodies, so a single state-polymorphic definition covers both. -/
def Labels.bitxor {N : Nat} {S : Type} (self rhs : Labels N S) : Labels N S :=
  { state := self.state
    labels := fun i => Label.xor (self.labels i) (rhs.labels i) }

/-- `impl Index<usize> for Labels<N, S>`: `&self.labels[index]`.  Rust array
indexing panics out of bounds; the total embedding returns `Option`. -/
def Labels.index? {N : Nat} {S : Type} (self : Labels N S) (i : Nat) : Option Label :=
  if h : i < N then some (self.labels ⟨i, h⟩) else none

/-! ## Helper lemmas -/

/-- The verify loop succeeds exactly when every wire in the remaining index
list passes the membership test. -/
theorem verifyGo_ok_iff {N : Nat} (F : Labels N Full) (A : Labels N Active)
    (l : List (Fin N)) :
    Labels.verifyGo F A l = Except.ok () ↔
      ∀ i ∈ l, A.labels i = F.labels i ∨
        A.labels i = Label.xorDelta (F.labels i) F.state.delta := by
  induction l with
  | nil => simp [Labels.verifyGo]
  | cons i rest ih =>
    by_cases h : A.labels i = F.labels i ∨
        A.labels i = Label.xorDelta (F.labels i) F.state.delta
    · simp [Labels.verifyGo, h, ih]
    · simp [Labels.verifyGo, h]

/-- The verify loop returns either `Ok(())` or `Err(InvalidActiveEncoding)`. -/
theorem verifyGo_cases {N : Nat} (F : Labels N Full) (A : Labels N Active)
    (l : List (Fin N)) :
    Labels.verifyGo F A l = Except.ok () ∨
      Labels.verifyGo F A l = Except.error ValueError.InvalidActiveEncoding := by
  induction l with
  | nil => left; rfl
  | cons i rest ih =>
    by_cases h : A.labels i = F.labels i ∨
        A.labels i = Label.xorDelta (F.labels i) F.state.delta
    · simpa [Labels.verifyGo, h] using ih
    · right; simp [Labels.verifyGo, h]

/-- XOR with a block of odd LSB flips the LSB. -/
theorem lsb_xor_flip (a d : Block) (hd : Block.lsb d = 1) :
    Block.lsb (Nat.xor a d) = 1 - Block.lsb a := by
  unfold Block.lsb at hd ⊢
  have hx : (Nat.xor a d) % 2 = (a + d) % 2 := Nat.xor_mod_two_eq
  omega

/-! ## Concrete collections used by witnesses and counterexamples -/

/-- Width-1 Full collection with delta block 1, low label 0. -/
def cexA : Labels 1 Full := ⟨⟨⟨1⟩⟩, fun _ => ⟨0⟩⟩

/-- Width-1 Full collection with delta block 3, low label 0. -/
def cexB : Labels 1 Full := ⟨⟨⟨3⟩⟩, fun _ => ⟨0⟩⟩

/-- Width-1 Full collection with delta block 5, low label 2. -/
def wcA : Labels 1 Full := ⟨⟨⟨5⟩⟩, fun _ => ⟨2⟩⟩

/-- Width-1 Full collection with delta block 5, low label 9. -/
def wcB : Labels 1 Full := ⟨⟨⟨5⟩⟩, fun _ => ⟨9⟩⟩

/-- Width-1 Full collection with delta block 7, low label 2. -/
def w5A : Labels 1 Full := ⟨⟨⟨7⟩⟩, fun _ => ⟨2⟩⟩

/-- Width-1 Full collection with delta block 7, low label 9. -/
def w5B : Labels 1 Full := ⟨⟨⟨7⟩⟩, fun _ => ⟨9⟩⟩

/-- Width-1 Full collection with delta block 1, low label 0 (for C10). -/
def w10A : Labels 1 Full := ⟨⟨⟨1⟩⟩, fun _ => ⟨0⟩⟩

/-- Width-1 Full collection with delta block 3, low label 0 (for C10). -/
def w10B : Labels 1 Full := ⟨⟨⟨3⟩⟩, fun _ => ⟨0⟩⟩

/-- Width-1 Active collection with label 4 (for C9's witness). -/
def idxW : Labels 1 Active := ⟨Active.mk, fun _ => ⟨4⟩⟩

/-! ## Claim theorems -/

/-- C1: `F.verify(A)` returns `Ok` if and only if every wire's active label is
the low label or the low label XOR delta; otherwise it returns
`Err(InvalidActiveEncoding)`. -/
theorem verify_ok_iff_membership {N : Nat} (F : Labels N Full) (A : Labels N Active) :
    Labels.verify F A =
      if ∀ i : Fin N, A.labels i = F.labels i ∨
          A.labels i = Label.xorDelta (F.labels i) (Labels.delta F)
      then Except.ok ()
      else Except.error ValueError.InvalidActiveEncoding := by
  by_cases h : ∀ i : Fin N, A.labels i = F.labels i ∨
      A.labels i = Label.xorDelta (F.labels i) (Labels.delta F)
  · rw [if_pos h]
    exact (verifyGo_ok_iff F A _).mpr fun i _ => h i
  · rw [if_neg h]
    rcases verifyGo_cases F A (List.finRange N) with hok | herr
    · exact absurd (fun i => (verifyGo_ok_iff F A _).mp hok i (List.mem_finRange i)) h
    · exact herr

/-- C2: for every RNG outcome, the Delta returned by `Delta::random` has
least-significant bit 1. -/
theorem delta_random_lsb_eq_one (rngBlock : Block) :
    Block.lsb (Delta.random rngBlock).block = 1 := by
  have h : Nat.testBit (rngBlock ||| 1) 0 = true := by
    rw [Nat.testBit_lor]
    simp
  rw [Nat.testBit_zero] at h
  exact of_decide_eq_true h

/-- C3: verify accepts the Active collection obtained from any per-wire bit
choice `b` by taking the low label where `b i = false` and the low label XOR
delta where `b i = true`. -/
theorem verify_accepts_selected {N : Nat} (F : Labels N Full) (b : Fin N → Bool) :
    Labels.verify F
      ⟨Active.mk, fun i =>
        if b i then Label.xorDelta (F.labels i) (Labels.delta F) else F.labels i⟩ =
      Except.ok () := by
  apply (verifyGo_ok_iff F _ _).mpr
  intro i _
  rcases Bool.eq_false_or_eq_true (b i) with hb | hb
  · right; simp [hb, Labels.delta]
  · left; simp [hb]

/-- C4: XORing a label with a Delta of odd LSB negates the pointer bit. -/
theorem pointer_bit_flips (L : Label) (d : Delta) (hd : Block.lsb d.block = 1) :
    Label.pointer_bit (Label.xorDelta L d) = !(Label.pointer_bit L) := by
  unfold Label.pointer_bit Label.xorDelta
  rw [lsb_xor_flip L.block d.block hd]
  unfold Block.lsb
  rcases Nat.mod_two_eq_zero_or_one L.block with h | h <;> simp [h]

/-- C4 witness: instantiated at label block 2 and delta block 1. -/
theorem pointer_bit_flips_witness :
    Block.lsb (Delta.mk 1).block = 1 ∧
      Label.pointer_bit (Label.xorDelta (Label.mk 2) (Delta.mk 1)) =
        !(Label.pointer_bit (Label.mk 2)) :=
  ⟨rfl, pointer_bit_flips (Label.mk 2) (Delta.mk 1) rfl⟩

/-- C5: XOR of two Full collections sharing the same Delta yields a Full
collection carrying that Delta, with wirewise-XORed labels. -/
theorem full_xor_preserves_delta {N : Nat} (a b : Labels N Full) (d : Delta)
    (ha : Labels.delta a = d) (_hb : Labels.delta b = d) :
    Labels.delta (Labels.bitxor a b) = d ∧
      ∀ i, (Labels.bitxor a b).labels i = Label.xor (a.labels i) (b.labels i) := by
  refine ⟨?_, fun i => rfl⟩
  simpa [Labels.bitxor, Labels.delta] using ha

/-- C5 witness: instantiated at two width-1 Full collections sharing delta 7. -/
theorem full_xor_preserves_delta_witness :
    Labels.delta (Labels.bitxor w5A w5B) = Delta.mk 7 ∧
      ∀ i, (Labels.bitxor w5A w5B).labels i =
        Label.xor (w5A.labels i) (w5B.labels i) :=
  full_xor_preserves_delta w5A w5B (Delta.mk 7) rfl rfl

/-- C6: XOR of two Active collections yields an Active collection whose
wire-i label is the XOR of the operands' wire-i labels. -/
theorem active_xor_labels {N : Nat} (a b : Labels N Active) :
    (Labels.bitxor a b).state = Active.mk ∧
      ∀ i, (Labels.bitxor a b).labels i = Label.xor (a.labels i) (b.labels i) :=
  ⟨rfl, fun _ => rfl⟩

/-- C7 counterexample: XOR on Full collections is not commutative as stated:
two width-1 Full collections with deltas 1 and 3 XOR to collections carrying
different deltas depending on operand order. -/
theorem xor_full_not_comm_cex :
    Labels.bitxor cexA cexB ≠ Labels.bitxor cexB cexA := by
  intro h
  have h2 := congrArg (fun L => (Labels.delta L).block) h
  simp [cexA, cexB, Labels.bitxor, Labels.delta] at h2

/-- C7 amended: XOR on Active collections is commutative and associative; XOR
on Full collections is associative, and commutative when the operands carry
the same Delta. -/
theorem xor_comm_assoc_amended (N : Nat) :
    (∀ a b : Labels N Active, Labels.bitxor a b = Labels.bitxor b a) ∧
    (∀ a b c : Labels N Active,
      Labels.bitxor (Labels.bitxor a b) c = Labels.bitxor a (Labels.bitxor b c)) ∧
    (∀ a b c : Labels N Full,
      Labels.bitxor (Labels.bitxor a b) c = Labels.bitxor a (Labels.bitxor b c)) ∧
    (∀ a b : Labels N Full, Labels.delta a = Labels.delta b →
      Labels.bitxor a b = Labels.bitxor b a) := by
  refine ⟨fun a b => ?_, fun a b c => ?_, fun a b c => ?_, fun a b h => ?_⟩
  · exact Labels.ext rfl (funext fun i => congrArg Label.mk
      (Nat.xor_comm (a.labels i).block (b.labels i).block))
  · exact Labels.ext rfl (funext fun i => congrArg Label.mk
      (Nat.xor_assoc (a.labels i).block (b.labels i).block (c.labels i).block))
  · exact Labels.ext rfl (funext fun i => congrArg Label.mk
      (Nat.xor_assoc (a.labels i).block (b.labels i).block (c.labels i).block))
  · obtain ⟨⟨da⟩, la⟩ := a
    obtain ⟨⟨db⟩, lb⟩ := b
    simp only [Labels.delta] at h
    cases h
    exact Labels.ext rfl (funext fun i => congrArg Label.mk
      (Nat.xor_comm (la i).block (lb i).block))

/-- C7 amended witness: Full commutativity instantiated at two width-1 Full
collections sharing delta 5. -/
theorem xor_comm_assoc_amended_witness :
    Labels.bitxor wcA wcB = Labels.bitxor wcB wcA :=
  (xor_comm_assoc_amended 1).2.2.2 wcA wcB rfl

/-- C8: `iter_blocks` yields exactly N pairs in wire order, the pair of wire i
being (low i, low i XOR delta). -/
theorem iter_blocks_pairs {N : Nat} (F : Labels N Full) :
    (Labels.iter_blocks F).length = N ∧
      ∀ i : Fin N, (Labels.iter_blocks F).getD i ((0 : Block), (0 : Block)) =
        ((F.labels i).block, Nat.xor (F.labels i).block (Labels.delta F).block) := by
  constructor
  · simp [Labels.iter_blocks]
  · intro i
    have hlen : (i : Nat) < ((List.finRange N).map fun j =>
        ((F.labels j).block, Nat.xor (F.labels j).block (Labels.delta F).block)).length := by
      simp [i.isLt]
    rw [Labels.iter_blocks, List.getD_eq_getElem _ _ hlen]
    simp

/-- C9: indexing a Labels collection succeeds exactly on indices below the
length, and under that precondition returns the stored label. -/
theorem index_some_iff {N : Nat} {S : Type} (L : Labels N S) (i : Nat) :
    ((Labels.index? L i).isSome ↔ i < Labels.len L) ∧
      ∀ h : i < Labels.len L, Labels.index? L i = some (L.labels ⟨i, h⟩) := by
  unfold Labels.index? Labels.len
  constructor
  · split <;> simp_all
  · intro h
    simp [h]

/-- C9 witness: instantiated at a width-1 Active collection and index 0. -/
theorem index_some_iff_witness :
    Labels.index? idxW 0 = some (idxW.labels ⟨0, Nat.zero_lt_one⟩) :=
  (index_some_iff idxW 0).2 Nat.zero_lt_one

/-- C10: XOR of Full collections is total, takes the Delta of the left
operand unconditionally, and is not commutative when the Deltas differ. -/
theorem full_xor_left_delta_no_check {N : Nat} (a b : Labels N Full) :
    Labels.delta (Labels.bitxor a b) = Labels.delta a ∧
      (Labels.delta a ≠ Labels.delta b →
        Labels.bitxor a b ≠ Labels.bitxor b a) := by
  refine ⟨rfl, fun hne heq => hne ?_⟩
  have h2 := congrArg Labels.delta heq
  simpa [Labels.bitxor, Labels.delta] using h2

/-- C10 witness: instantiated at two width-1 Full collections with deltas
1 and 3. -/
theorem full_xor_left_delta_no_check_witness :
    Labels.delta (Labels.bitxor w10A w10B) = Labels.delta w10A ∧
      Labels.bitxor w10A w10B ≠ Labels.bitxor w10B w10A :=
  ⟨(full_xor_left_delta_no_check w10A w10B).1,
   (full_xor_left_delta_no_check w10A w10B).2 (by decide)⟩

end MpzGarble
